import Mathlib

/-!
Shallow embedding of the cache-backed record store of
`dakara_server/internal/cache_model.py` (the `CacheManager` / `CacheModel`
subsystem) and proofs about it.

The store backend holds, per record type, a Python dict mapping the primary
key of each persisted instance to a dict of its field values
(`CacheManager._access_store`).  Dicts are embedded as association lists with
Python dict semantics (assignment updates the first occurrence in place or
appends, deletion removes the entry, iteration follows list order).  Field
values are embedded by the inductive `Val`; primary keys are integers per the
data model (assigned as `max(keys) + 1` on first save).
-/

/-- A field value stored in the cache: Python `None`, an integer, or a
string.  These cover the codec-representable values the record types use. -/
inductive Val where
  | none : Val
  | int : Int → Val
  | str : String → Val
deriving DecidableEq, Repr

/-- A record instance (`CacheModel` object): its primary key (`instance.pk`,
Python `None` until assigned) and its remaining declared fields as attribute
values.  Primary keys are integers per the data model. -/
structure Instance where
  pk : Option Nat
  fields : List (String × Val)
deriving DecidableEq, Repr

/-- The collection of one record type as held in the store backend: the dict
yielded by `CacheManager._access_store`, mapping each primary key to the
field dict of the instance stored under it. -/
abbrev Store := List (Nat × List (String × Val))

/-- Python dict read `d[k]` / `d.get(k)`: value at the first entry whose key
equals `k`. -/
def assocGet {α β : Type} [DecidableEq α] : List (α × β) → α → Option β
  | [], _ => Option.none
  | p :: rest, k => if p.1 = k then some p.2 else assocGet rest k

/-- Python dict assignment `d[k] = v`: update the entry holding `k` in place,
or append a new entry when `k` is absent. -/
def dictSet {α β : Type} [DecidableEq α] : List (α × β) → α → β → List (α × β)
  | [], k, v => [(k, v)]
  | p :: rest, k, v => if p.1 = k then (k, v) :: rest else p :: dictSet rest k v

/-- Python `d.update(e)`: set every entry of `e` into `d`, in order. -/
def dictUpdate {α β : Type} [DecidableEq α] (d e : List (α × β)) : List (α × β) :=
  e.foldl (fun acc p => dictSet acc p.1 p.2) d

/-- Python `d.values()`. -/
def dictValues {α β : Type} (d : List (α × β)) : List β :=
  d.map Prod.snd

/-- The `pk` attribute of an instance as the Python value seen by `getattr`:
`None` when unset, the integer otherwise. -/
def pkVal : Option Nat → Val
  | some n => Val.int (Int.ofNat n)
  | Option.none => Val.none

/-- Assigning a Python value to the integer primary-key attribute of a model
instance: a non-negative integer is accepted, anything else leaves the key
unset (primary keys are integers per the data model). -/
def parsePk : Val → Option Nat
  | Val.int m => if 0 ≤ m then some m.toNat else Option.none
  | _ => Option.none

/-- `getattr(instance, name)`: the `pk` attribute reads the primary key,
every other name reads the field value (Django model fields not supplied to
the constructor read back as `None`). -/
def getattrV (inst : Instance) (name : String) : Val :=
  if name = "pk" then pkVal inst.pk
  else (assocGet inst.fields name).getD Val.none

/-- `CacheManager._instance_to_dict`: the dict of all concrete fields of the
instance, read by attribute access, in schema order.  `schema` lists the
declared field names of the record type (the primary-key field among them). -/
def _instance_to_dict (schema : List String) (inst : Instance) : List (String × Val) :=
  schema.map (fun n => (n, getattrV inst n))

/-- `CacheManager._dict_to_instance`, which is also the model constructor
`self.model(**d)`: every keyword sets the attribute of the same name, the
`pk` keyword setting the primary key. -/
def _dict_to_instance (d : List (String × Val)) : Instance :=
  { pk := match assocGet d "pk" with
          | some v => parsePk v
          | Option.none => Option.none,
    fields := d.filter (fun p => decide (p.1 ≠ "pk")) }

/-- The condition of the list comprehension in `CacheManager.filter`:
`all([getattr(obj, name) == value for name, value in kwargs.items()])`. -/
def matchesCriteria (inst : Instance) (criteria : List (String × Val)) : Bool :=
  criteria.all (fun p => decide (getattrV inst p.1 = p.2))

/-- `CacheManager.all`: one instance per stored field dict. -/
def CacheManager.all (s : Store) : List Instance :=
  (dictValues s).map _dict_to_instance

/-- `CacheManager.count`. -/
def CacheManager.count (s : Store) : Nat :=
  (CacheManager.all s).length

/-- `CacheManager.filter`: the instances of `all` matching every criterion. -/
def CacheManager.filter (s : Store) (criteria : List (String × Val)) : List Instance :=
  (CacheManager.all s).filter (fun obj => matchesCriteria obj criteria)

/-- Outcome of `CacheManager.get`: the single match, or the raised
`DoesNotExist` / `MultipleObjectsReturned` exception (the latter reporting
`len(objects)` as in the message the code formats). -/
inductive GetResult where
  | found (inst : Instance)
  | doesNotExist
  | multipleObjectsReturned (n : Nat)
deriving DecidableEq, Repr

/-- `CacheManager.get`: one match is returned, zero matches raise
`DoesNotExist`, more raise `MultipleObjectsReturned`. -/
def CacheManager.get (s : Store) (criteria : List (String × Val)) : GetResult :=
  match CacheManager.filter s criteria with
  | [inst] => GetResult.found inst
  | [] => GetResult.doesNotExist
  | objects => GetResult.multipleObjectsReturned objects.length

/-- `max(list(store.keys()) or [0])` in `CacheManager.save`: the largest
existing primary key, `0` for an empty store. -/
def maxKey (s : Store) : Nat :=
  (s.map Prod.fst).foldl max 0

/-- `CacheManager.save`: run the per-field pre-save hooks (identity for the
hook-less fields modelled here), assign `max(keys or [0]) + 1` as primary key
when the instance has none, then store the field dict of the instance under
its primary key.  Returns the updated store and the (possibly re-keyed)
instance. -/
def CacheManager.save (schema : List String) (s : Store) (inst : Instance) :
    Store × Instance :=
  let k := match inst.pk with
    | Option.none => maxKey s + 1
    | some k => k
  let inst2 : Instance := ⟨some k, inst.fields⟩
  (dictSet s k (_instance_to_dict schema inst2), inst2)

/-- `CacheManager.create`: construct `self.model(**kwargs)` and save it. -/
def CacheManager.create (schema : List String) (s : Store) (kwargs : List (String × Val)) :
    Store × Instance :=
  CacheManager.save schema s (_dict_to_instance kwargs)

/-- `CacheManager.delete`: `del store[instance.pk]`, where a missing key
(`KeyError`, including an unassigned `pk` of `None`, which is never a store
key) raises `DoesNotExist`, modelled as `Option.none`. -/
def CacheManager.delete (s : Store) (inst : Instance) : Option Store :=
  match inst.pk with
  | some k =>
      if k ∈ s.map Prod.fst then some (s.filter (fun p => decide (p.1 ≠ k)))
      else Option.none
  | Option.none => Option.none

/-- `CacheManager.get_or_create`: try `get`; a found instance is returned
with `created=False`; on `DoesNotExist` the criteria are updated with the
defaults (`kwargs.update(defaults)`, a `None`/empty mapping updating nothing)
and a new instance is created; `MultipleObjectsReturned` propagates,
modelled as `Option.none`. -/
def CacheManager.get_or_create (schema : List String) (s : Store)
    (defaults criteria : List (String × Val)) :
    Option ((Store × Instance) × Bool) :=
  match CacheManager.get s criteria with
  | GetResult.found inst => some ((s, inst), false)
  | GetResult.doesNotExist =>
      some (CacheManager.create schema s (dictUpdate criteria defaults), true)
  | GetResult.multipleObjectsReturned _ => Option.none

/-- An on-delete policy as registered by the relationship machinery: it
receives the about-to-be-deleted instance of the referenced type (possibly
`None`) and acts on the dependent manager's store; an uncaught exception is
`Option.none`. -/
abbrev PolicyFn := Option Instance → Store → Option Store

/-- `DO_NOTHING`: on suppression of the related instance, do nothing. -/
def DO_NOTHING : PolicyFn := fun _ s => some s

/-- `CASCADE`: on suppression of the related instance, look up the dependent
manager by `pk=instance_to_delete.pk` and delete the found instance.  A
`None` instance returns immediately; `DoesNotExist` (from the lookup or from
the deletion) is caught and ignored; `MultipleObjectsReturned` propagates. -/
def CASCADE : PolicyFn := fun instance_to_delete s =>
  match instance_to_delete with
  | Option.none => some s
  | some d =>
      match CacheManager.get s [("pk", pkVal d.pk)] with
      | GetResult.found inst => some ((CacheManager.delete s inst).getD s)
      | GetResult.doesNotExist => some s
      | GetResult.multipleObjectsReturned _ => Option.none

/-- Run the pre-delete handlers registered for the referenced type, each
applying its policy to the dependent manager's store
(`handle` in `CacheManager._manage_on_delete_fields`); an exception from a
handler aborts the chain. -/
def firePreDelete (handlers : List PolicyFn) (b : Instance) (sA : Store) : Option Store :=
  handlers.foldl (fun acc h => acc.bind (h (some b))) (some sA)

/-- Removal of the referenced record `b` from its own collection once its
deletion completes. -/
def removeReferenced (sB : Store) (b : Instance) : Store :=
  match b.pk with
  | some k => sB.filter (fun p => decide (p.1 ≠ k))
  | Option.none => sB

/-- Modelled from the spec: the deletion notification dispatch is framework
behaviour not present under `src/` — "Deleting a referenced record fires a
notification that the Relationship Registry uses to run the registered
on-delete policy against the dependent manager", and "Policy functions
receive the *about-to-be-deleted* instance (pre-delete, not post-delete)".
Deleting `b` of the referenced type runs every registered handler on the
dependent store `sA`, then removes `b` from its own collection `sB`. -/
def deleteReferenced (handlers : List PolicyFn) (sA sB : Store) (b : Instance) :
    Option (Store × Store) :=
  (firePreDelete handlers b sA).map (fun sA2 => (sA2, removeReferenced sB b))

/-- Well-formedness of a store maintained by the manager: primary keys are
unique, and each stored field dict records its own key in the primary-key
field. -/
def storeWF (s : Store) : Prop :=
  (s.map Prod.fst).Nodup ∧ ∀ p ∈ s, assocGet p.2 "pk" = some (Val.int (Int.ofNat p.1))

/-- The value of the `cache_on_delete` attribute of a declared field as read
by `getattr(field, "cache_on_delete", None)`: the attribute may be absent
(the `getattr` default `None`), present but not callable, or a callable
policy function. -/
inductive OnDeleteAttr where
  | absent
  | notCallable
  | policy (f : PolicyFn)

/-- `callable(on_delete)` for the possible attribute values: `None` (absent)
and a non-callable value are not callable. -/
def isCallable : OnDeleteAttr → Bool
  | OnDeleteAttr.policy _ => true
  | _ => false

/-- A concrete field of the declared record type, as seen by
`self.model._meta.concrete_fields`: its name, whether it is a
`models.ForeignKey`, and its `cache_on_delete` attribute. -/
structure FieldDecl where
  name : String
  isForeignKey : Bool
  cache_on_delete : OnDeleteAttr

/-- The cache-aware `ForeignKey` / `OneToOneField` built on
`CacheOnDeleteMixin`: the provided `on_delete` argument is saved on the field
as `cache_on_delete` (while `models.DO_NOTHING` is passed to the parent). -/
def mkCacheForeignKey (nm : String) (on_delete : OnDeleteAttr) : FieldDecl :=
  ⟨nm, true, on_delete⟩

/-- A standard `models.ForeignKey` declared without the cache-aware wrapper:
no `cache_on_delete` attribute is ever set on it, so `getattr` with default
returns `None`. -/
def mkPlainForeignKey (nm : String) : FieldDecl :=
  ⟨nm, true, OnDeleteAttr.absent⟩

/-- A record type declaration: its name and its concrete fields. -/
structure ModelDecl where
  name : String
  fields : List FieldDecl

/-- `CacheManager._manage_on_delete_fields`: walk the concrete fields,
skipping non-foreign-key fields; a foreign-key field whose `cache_on_delete`
attribute is not callable raises `TypeError("cache_on_delete must be
callable")`; otherwise the handler for the field is registered (stored in
`_on_delete_funcs` under the field name). -/
def _manage_on_delete_fields : List FieldDecl → Except String (List (String × PolicyFn))
  | [] => Except.ok []
  | f :: rest =>
      if f.isForeignKey then
        match f.cache_on_delete with
        | OnDeleteAttr.policy g =>
            match _manage_on_delete_fields rest with
            | Except.ok regs => Except.ok ((f.name, g) :: regs)
            | Except.error e => Except.error e
        | _ => Except.error "cache_on_delete must be callable"
      else _manage_on_delete_fields rest

/-- `CacheManager._connect`: associate the manager with the model and scan
its on-delete fields (the name bookkeeping is elided). -/
def _connect (m : ModelDecl) : Except String (List (String × PolicyFn)) :=
  _manage_on_delete_fields m.fields

/-- `CacheModelBase.__new__`: creating the record type constructs a
`CacheManager` and `_connect`s it to the new class, so a `TypeError` from the
on-delete scan propagates out of the type definition itself. -/
def cacheModelBase_new (m : ModelDecl) :
    Except String (ModelDecl × List (String × PolicyFn)) :=
  match _connect m with
  | Except.ok regs => Except.ok (m, regs)
  | Except.error e => Except.error e

/-! ### Helper lemmas on the dict embedding -/

theorem assocGet_dictSet {α β : Type} [DecidableEq α] (d : List (α × β)) (k : α) (v : β)
    (j : α) : assocGet (dictSet d k v) j = if k = j then some v else assocGet d j := by
  induction d with
  | nil => simp [dictSet, assocGet]
  | cons p rest ih =>
    by_cases hpk : p.1 = k
    · by_cases hkj : k = j
      · simp [dictSet, hpk, assocGet, hkj]
      · have hpj : ¬ p.1 = j := by rw [hpk]; exact hkj
        simp [dictSet, hpk, assocGet, hkj, hpj]
    · by_cases hpj : p.1 = j
      · have hkj : ¬ k = j := by
          intro h
          exact hpk (by rw [h, hpj])
        have hjk : ¬ j = k := fun h => hkj h.symm
        simp [dictSet, hpk, assocGet, hpj, hkj, hjk]
      · simp [dictSet, hpk, assocGet, hpj, ih]

theorem assocGet_dictUpdate_not_mem {α β : Type} [DecidableEq α] (e : List (α × β))
    (d : List (α × β)) (k : α) (hk : k ∉ e.map Prod.fst) :
    assocGet (dictUpdate d e) k = assocGet d k := by
  revert hk
  induction e generalizing d with
  | nil => intro _; rfl
  | cons p rest ih =>
    intro hk
    rw [List.map_cons, List.mem_cons] at hk
    push_neg at hk
    show assocGet (dictUpdate (dictSet d p.1 p.2) rest) k = assocGet d k
    rw [ih (dictSet d p.1 p.2) hk.2, assocGet_dictSet]
    exact if_neg hk.1.symm

theorem assocGet_dictUpdate_mem {α β : Type} [DecidableEq α] (e : List (α × β))
    (d : List (α × β)) (k : α) (v : β) (hnd : (e.map Prod.fst).Nodup)
    (h : assocGet e k = some v) : assocGet (dictUpdate d e) k = some v := by
  revert hnd h
  induction e generalizing d with
  | nil => intro _ h; exact absurd h (by simp [assocGet])
  | cons p rest ih =>
    intro hnd h
    rw [List.map_cons, List.nodup_cons] at hnd
    by_cases hpk : p.1 = k
    · have hv : p.2 = v := by
        have : some p.2 = some v := by rw [← h]; simp [assocGet, hpk]
        exact Option.some.inj this
      show assocGet (dictUpdate (dictSet d p.1 p.2) rest) k = some v
      rw [assocGet_dictUpdate_not_mem rest (dictSet d p.1 p.2) k (by rw [← hpk]; exact hnd.1),
        assocGet_dictSet, if_pos hpk, hv]
    · have h2 : assocGet rest k = some v := by
        rw [← h]; simp [assocGet, hpk]
      exact ih (dictSet d p.1 p.2) hnd.2 h2

theorem assocGet_map_self {α β : Type} [DecidableEq α] (f : α → β) (l : List α) (n : α)
    (hn : n ∈ l) : assocGet (l.map (fun m => (m, f m))) n = some (f n) := by
  induction l with
  | nil => exact absurd hn (List.not_mem_nil n)
  | cons m rest ih =>
    by_cases hm : m = n
    · simp [assocGet, hm]
    · have : n ∈ rest := by
        rcases List.mem_cons.mp hn with h | h
        · exact absurd h.symm hm
        · exact h
      simp [assocGet, hm, ih this]

theorem assocGet_filter_ne {β : Type} (l : List (String × β)) (n : String)
    (hn : n ≠ "pk") :
    assocGet (l.filter (fun p => decide (p.1 ≠ "pk"))) n = assocGet l n := by
  induction l with
  | nil => rfl
  | cons p rest ih =>
    rw [List.filter_cons]
    simp only [ne_eq, decide_not] at ih
    by_cases hp : p.1 = "pk"
    · have h1 : decide (p.1 ≠ "pk") = false := by simp [hp]
      have hpn : ¬ p.1 = n := by rw [hp]; exact fun h => hn h.symm
      rw [h1]
      simp [assocGet, hpn, ih]
    · have h1 : decide (p.1 ≠ "pk") = true := by simp [hp]
      rw [h1]
      by_cases hpn : p.1 = n
      · simp [assocGet, hpn]
      · simp [assocGet, hpn, ih]

theorem filter_map_comm {α β : Type} (f : α → β) (P : β → Bool) (Q : α → Bool) :
    ∀ (l : List α), (∀ a ∈ l, P (f a) = Q a) →
      (l.map f).filter P = (l.filter Q).map f
  | [], _ => rfl
  | a :: rest, h => by
      rw [List.map_cons, List.filter_cons, List.filter_cons, h a (List.mem_cons_self a rest)]
      by_cases hq : Q a = true
      · rw [if_pos hq, if_pos hq, List.map_cons,
          filter_map_comm f P Q rest (fun b hb => h b (List.mem_cons_of_mem a hb))]
      · rw [if_neg hq, if_neg hq,
          filter_map_comm f P Q rest (fun b hb => h b (List.mem_cons_of_mem a hb))]

theorem dti_pk (v : List (String × Val)) (m : Nat)
    (hv : assocGet v "pk" = some (Val.int (Int.ofNat m))) :
    (_dict_to_instance v).pk = some m := by
  simp only [_dict_to_instance, hv, parsePk]
  simp [Int.ofNat_nonneg, Int.toNat_ofNat]

theorem getattr_pk_of_wf (v : List (String × Val)) (m : Nat)
    (hv : assocGet v "pk" = some (Val.int (Int.ofNat m))) :
    getattrV (_dict_to_instance v) "pk" = Val.int (Int.ofNat m) := by
  simp [getattrV, pkVal, dti_pk v m hv]

theorem filter_pk_entries (s : Store) (k : Nat)
    (h : ∀ p ∈ s, assocGet p.2 "pk" = some (Val.int (Int.ofNat p.1))) :
    CacheManager.filter s [("pk", Val.int (Int.ofNat k))] =
      (s.filter (fun p => decide (p.1 = k))).map (fun p => _dict_to_instance p.2) := by
  simp only [CacheManager.filter, CacheManager.all, dictValues, List.map_map]
  exact filter_map_comm _ _ _ s (fun p hp => by
    have hget := getattr_pk_of_wf p.2 p.1 (h p hp)
    simp only [Function.comp, matchesCriteria, List.all_cons, List.all_nil,
      Bool.and_true, hget]
    exact decide_eq_decide.mpr
      ⟨fun h2 => by
          injection h2 with h3
          exact Int.ofNat_inj.mp h3,
        fun h2 => by rw [h2]⟩)

theorem filter_key_singleton (s : Store) (k : Nat) :
    (s.map Prod.fst).Nodup → k ∈ s.map Prod.fst →
    ∃ v, (k, v) ∈ s ∧ s.filter (fun p => decide (p.1 = k)) = [(k, v)] := by
  induction s with
  | nil => intro _ hk; exact absurd hk (List.not_mem_nil k)
  | cons p rest ih =>
    intro hnd hk
    obtain ⟨a, b⟩ := p
    rw [List.map_cons, List.nodup_cons] at hnd
    rw [List.map_cons, List.mem_cons] at hk
    rw [List.filter_cons]
    by_cases hak : a = k
    · subst hak
      refine ⟨b, List.mem_cons_self _ _, ?_⟩
      rw [if_pos (by simp)]
      have hrest0 : rest.filter (fun p => decide (p.1 = a)) = [] := by
        refine List.filter_eq_nil_iff.mpr (fun q hq => ?_)
        simp only [decide_eq_true_eq]
        intro hq1
        have hmm := List.mem_map_of_mem Prod.fst hq
        rw [hq1] at hmm
        exact hnd.1 hmm
      rw [hrest0]
    · rcases hk with hk | hk
      · exact absurd hk.symm hak
      · obtain ⟨v, hv1, hv2⟩ := ih hnd.2 hk
        refine ⟨v, List.mem_cons_of_mem _ hv1, ?_⟩
        rw [if_neg (by simp [hak]), hv2]

theorem cascade_pk (s : Store) (d : Instance) (k : Nat) (hwf : storeWF s)
    (hpk : d.pk = some k) :
    CASCADE (some d) s = some (s.filter (fun p => decide (p.1 ≠ k))) := by
  have hfilter := filter_pk_entries s k hwf.2
  by_cases hk : k ∈ s.map Prod.fst
  · obtain ⟨v, hv1, hv2⟩ := filter_key_singleton s k hwf.1 hk
    have hget : CacheManager.get s [("pk", Val.int (Int.ofNat k))] =
        GetResult.found (_dict_to_instance v) := by
      unfold CacheManager.get
      rw [hfilter, hv2]
      rfl
    have hdel : CacheManager.delete s (_dict_to_instance v) =
        some (s.filter (fun p => decide (p.1 ≠ k))) := by
      have hvpk : (_dict_to_instance v).pk = some k := dti_pk v k (hwf.2 (k, v) hv1)
      simp only [CacheManager.delete, hvpk]
      rw [if_pos hk]
    simp only [CASCADE]
    rw [hpk]
    simp only [pkVal]
    rw [hget]
    show some ((CacheManager.delete s (_dict_to_instance v)).getD s) =
      some (s.filter (fun p => decide (p.1 ≠ k)))
    rw [hdel]
    rfl
  · have hempty : s.filter (fun p => decide (p.1 = k)) = [] :=
      List.filter_eq_nil_iff.mpr (fun q hq => by
        simp only [decide_eq_true_eq]
        intro h1
        exact hk (h1 ▸ List.mem_map_of_mem Prod.fst hq))
    have hget : CacheManager.get s [("pk", Val.int (Int.ofNat k))] =
        GetResult.doesNotExist := by
      unfold CacheManager.get
      rw [hfilter, hempty]
      rfl
    have hall : s.filter (fun p => decide (p.1 ≠ k)) = s :=
      List.filter_eq_self.mpr (fun q hq => by
        simp only [ne_eq, decide_eq_true_eq, decide_not, Bool.not_eq_true']
        exact decide_eq_false (fun h1 => hk (h1 ▸ List.mem_map_of_mem Prod.fst hq)))
    simp only [CASCADE]
    rw [hpk]
    simp only [pkVal]
    rw [hget, hall]

/-! ### Claim theorems -/

/-- Claim C1, counterexample.  The claim states that deleting a persisted
instance `b` of B deletes every persisted instance of A whose foreign-key
field equals `b.pk`, while instances of A referencing other B instances stay.
On the code this is false: with A-instances `{pk:1, tag:2}` (foreign-key
field `tag` referencing `b`, whose pk is 2) and `{pk:2, tag:9}` (referencing
another B), deleting `b` leaves the instance with `tag = b.pk` persisted and
instead removes the instance whose `tag` references another B — `CASCADE`
matches on the dependent's primary key, not on its foreign-key field. -/
theorem claim_C1_counterexample :
    deleteReferenced [CASCADE]
        [(1, [("pk", Val.int 1), ("name", Val.str "x"), ("tag", Val.int 2)]),
          (2, [("pk", Val.int 2), ("name", Val.str "y"), ("tag", Val.int 9)])]
        [(2, [("pk", Val.int 2), ("name", Val.str "A")])]
        ⟨some 2, [("name", Val.str "A")]⟩
      = some ([(1, [("pk", Val.int 1), ("name", Val.str "x"), ("tag", Val.int 2)])], [])
    ∧ getattrV
        (_dict_to_instance [("pk", Val.int 1), ("name", Val.str "x"), ("tag", Val.int 2)])
        "tag" = pkVal (some 2)
    ∧ getattrV
        (_dict_to_instance [("pk", Val.int 2), ("name", Val.str "y"), ("tag", Val.int 9)])
        "tag" ≠ pkVal (some 2) :=
  ⟨rfl, rfl, by decide⟩

/-- Claim C1, amended: deleting a persisted instance `b` of B through the
delete operation deletes the at most one persisted instance of A whose
*primary key* equals `b.pk` (the dependent store's entry under key `b.pk`,
when present); all other instances of A — in particular those whose
foreign-key field equals `b.pk` but whose primary key differs — remain
unchanged in A's collection, and `b` is removed from B's collection. -/
theorem claim_C1_cascade_deletes_by_pk (sA sB : Store) (b : Instance) (k : Nat)
    (hwf : storeWF sA) (hpk : b.pk = some k) :
    deleteReferenced [CASCADE] sA sB b =
      some (sA.filter (fun p => decide (p.1 ≠ k)),
        sB.filter (fun p => decide (p.1 ≠ k))) := by
  have h1 : removeReferenced sB b = sB.filter (fun p => decide (p.1 ≠ k)) := by
    unfold removeReferenced
    rw [hpk]
  have h0 : deleteReferenced [CASCADE] sA sB b
      = (CASCADE (some b) sA).map (fun sA2 => (sA2, removeReferenced sB b)) := rfl
  rw [h0, cascade_pk sA b k hwf hpk, h1]
  rfl

/-- Witness for the amended claim C1 at a concrete pair of stores. -/
theorem claim_C1_cascade_deletes_by_pk_witness :
    deleteReferenced [CASCADE]
        [(1, [("pk", Val.int 1), ("tag", Val.int 5)]),
          (2, [("pk", Val.int 2), ("tag", Val.int 5)])]
        [(2, [("pk", Val.int 2)])]
        ⟨some 2, []⟩
      = some ([(1, [("pk", Val.int 1), ("tag", Val.int 5)])], []) :=
  (claim_C1_cascade_deletes_by_pk
      [(1, [("pk", Val.int 1), ("tag", Val.int 5)]),
        (2, [("pk", Val.int 2), ("tag", Val.int 5)])]
      [(2, [("pk", Val.int 2)])]
      ⟨some 2, []⟩ 2 ⟨by decide, by decide⟩ rfl).trans rfl

/-- Claim C2, counterexample.  The claim states that `CASCADE (d, m)` looks
up in `m` an instance whose foreign-key field equals `d`'s primary key and
deletes it if found.  On the code this is false: with a dependent collection
holding `{pk:3, fk:7}` and a deleted instance of primary key 7, an instance
whose foreign-key field `fk` equals `d.pk` is persisted, yet `CASCADE`
leaves the collection unchanged — it searched by the dependent's primary
key (`get(pk=d.pk)`), which matched nothing. -/
theorem claim_C2_counterexample :
    CASCADE (some ⟨some 7, []⟩) [(3, [("pk", Val.int 3), ("fk", Val.int 7)])]
      = some [(3, [("pk", Val.int 3), ("fk", Val.int 7)])]
    ∧ (CacheManager.all [(3, [("pk", Val.int 3), ("fk", Val.int 7)])]).any
        (fun o => decide (getattrV o "fk" = pkVal (some 7))) = true :=
  ⟨rfl, rfl⟩

/-- Claim C2, amended: for every deleted instance `d` and dependent manager,
invoking `CASCADE` looks up the manager for the instance whose *primary key*
equals `d`'s primary key and deletes it if found; if no such instance
exists, the call is a silent no-op (no error, collection unchanged). -/
theorem claim_C2_cascade_pk_lookup (s : Store) (d : Instance) (k : Nat)
    (hwf : storeWF s) (hpk : d.pk = some k) :
    CASCADE (some d) s = some (s.filter (fun p => decide (p.1 ≠ k)))
    ∧ (k ∉ s.map Prod.fst → CASCADE (some d) s = some s) := by
  refine ⟨cascade_pk s d k hwf hpk, fun hk => ?_⟩
  rw [cascade_pk s d k hwf hpk]
  congr 1
  exact List.filter_eq_self.mpr (fun q hq => by
    simp only [ne_eq, decide_not, Bool.not_eq_true']
    exact decide_eq_false (fun h1 => hk (h1 ▸ List.mem_map_of_mem Prod.fst hq)))

/-- Witness for the amended claim C2 at a concrete store. -/
theorem claim_C2_cascade_pk_lookup_witness :
    CASCADE (some ⟨some 4, []⟩) [(4, [("pk", Val.int 4)]), (6, [("pk", Val.int 6)])]
      = some [(6, [("pk", Val.int 6)])] :=
  ((claim_C2_cascade_pk_lookup [(4, [("pk", Val.int 4)]), (6, [("pk", Val.int 6)])]
      ⟨some 4, []⟩ 4 ⟨by decide, by decide⟩ rfl).1).trans rfl

/-- Claim C3: saving an instance with no primary key assigns
`max(existing keys, default 0) + 1` and stores it under that key; saving an
instance that already has a primary key overwrites the entry at that key
without changing the key; all other entries are unchanged. -/
theorem claim_C3_save_spec (schema : List String) (s : Store) (inst : Instance)
    (st : Store) (inst2 : Instance)
    (hsave : CacheManager.save schema s inst = (st, inst2)) :
    (inst.pk = Option.none → inst2.pk = some (maxKey s + 1))
    ∧ (∀ k, inst.pk = some k → inst2 = inst)
    ∧ inst2.fields = inst.fields
    ∧ ∀ k, inst2.pk = some k →
        assocGet st k = some (_instance_to_dict schema inst2)
        ∧ ∀ j, j ≠ k → assocGet st j = assocGet s j := by
  cases hpk : inst.pk with
  | none =>
    have h1 : CacheManager.save schema s inst =
        (dictSet s (maxKey s + 1)
            (_instance_to_dict schema ⟨some (maxKey s + 1), inst.fields⟩),
          ⟨some (maxKey s + 1), inst.fields⟩) := by
      unfold CacheManager.save
      rw [hpk]
    rw [h1] at hsave
    injection hsave with hst hinst2
    subst hst
    subst hinst2
    refine ⟨fun _ => rfl, ?_, rfl, ?_⟩
    · intro k hk
      exact Option.noConfusion hk
    · intro k hk
      have hkk : maxKey s + 1 = k := Option.some.inj hk
      subst hkk
      constructor
      · rw [assocGet_dictSet]
        rw [if_pos rfl]
      · intro j hj
        rw [assocGet_dictSet]
        exact if_neg (fun h => hj h.symm)
  | some k0 =>
    have h1 : CacheManager.save schema s inst =
        (dictSet s k0 (_instance_to_dict schema ⟨some k0, inst.fields⟩),
          ⟨some k0, inst.fields⟩) := by
      unfold CacheManager.save
      rw [hpk]
    rw [h1] at hsave
    injection hsave with hst hinst2
    subst hst
    subst hinst2
    have heta : (⟨some k0, inst.fields⟩ : Instance) = inst := by
      cases inst with
      | mk p f =>
        simp only at hpk
        rw [hpk]
    refine ⟨?_, fun k _ => heta, rfl, ?_⟩
    · intro h
      exact Option.noConfusion h
    · intro k hk
      have hkk : k0 = k := Option.some.inj hk
      subst hkk
      constructor
      · rw [assocGet_dictSet]
        rw [if_pos rfl]
      · intro j hj
        rw [assocGet_dictSet]
        exact if_neg (fun h => hj h.symm)

/-- Witness for claim C3: a fresh instance saved into the empty store gets
primary key `max ∅ + 1`. -/
theorem claim_C3_save_spec_witness :
    (⟨Option.none, [("name", Val.str "x")]⟩ : Instance).pk = Option.none
    ∧ (CacheManager.save ["pk", "name"] [] ⟨Option.none, [("name", Val.str "x")]⟩).2.pk
        = some (maxKey [] + 1) :=
  ⟨rfl,
    (claim_C3_save_spec ["pk", "name"] [] ⟨Option.none, [("name", Val.str "x")]⟩
        (CacheManager.save ["pk", "name"] [] ⟨Option.none, [("name", Val.str "x")]⟩).1
        (CacheManager.save ["pk", "name"] [] ⟨Option.none, [("name", Val.str "x")]⟩).2
        rfl).1 rfl⟩

/-- Claim C4: `get` raises `DoesNotExist` on zero matches, returns the single
match on exactly one, and raises `MultipleObjectsReturned` on two or more. -/
theorem claim_C4_get_spec (s : Store) (criteria : List (String × Val)) :
    (CacheManager.filter s criteria = [] →
      CacheManager.get s criteria = GetResult.doesNotExist)
    ∧ (∀ inst, CacheManager.filter s criteria = [inst] →
        CacheManager.get s criteria = GetResult.found inst)
    ∧ (2 ≤ (CacheManager.filter s criteria).length →
        CacheManager.get s criteria =
          GetResult.multipleObjectsReturned (CacheManager.filter s criteria).length) := by
  refine ⟨?_, ?_, ?_⟩
  · intro h
    unfold CacheManager.get
    rw [h]
  · intro inst h
    unfold CacheManager.get
    rw [h]
  · intro h
    unfold CacheManager.get
    cases hl : CacheManager.filter s criteria with
    | nil =>
      rw [hl] at h
      simp at h
    | cons x tail =>
      cases tail with
      | nil =>
        rw [hl] at h
        simp at h
      | cons y rest =>
        rfl

/-- Witness for claim C4: an unfiltered `get` over a two-entry store raises
`MultipleObjectsReturned` reporting two matches. -/
theorem claim_C4_get_spec_witness :
    CacheManager.get [(1, [("pk", Val.int 1)]), (2, [("pk", Val.int 2)])] []
      = GetResult.multipleObjectsReturned 2 :=
  ((claim_C4_get_spec [(1, [("pk", Val.int 1)]), (2, [("pk", Val.int 2)])] []).2.2
      (by decide)).trans (by decide)

/-- Claim C5: `get_or_create` first attempts `get`; a unique match is
returned unchanged with `created=False`; on zero matches a new instance is
created and persisted from the criteria updated with the defaults (defaults
winning on key collision, for default mappings without duplicate keys);
`MultipleObjectsReturned` propagates uncaught. -/
theorem claim_C5_get_or_create_spec (schema : List String) (s : Store)
    (defaults criteria : List (String × Val))
    (hnd : (defaults.map Prod.fst).Nodup) :
    (∀ inst, CacheManager.get s criteria = GetResult.found inst →
        CacheManager.get_or_create schema s defaults criteria = some ((s, inst), false))
    ∧ (CacheManager.get s criteria = GetResult.doesNotExist →
        CacheManager.get_or_create schema s defaults criteria =
          some (CacheManager.create schema s (dictUpdate criteria defaults), true)
        ∧ ∀ k v, assocGet defaults k = some v →
            assocGet (dictUpdate criteria defaults) k = some v)
    ∧ ∀ n, CacheManager.get s criteria = GetResult.multipleObjectsReturned n →
        CacheManager.get_or_create schema s defaults criteria = Option.none := by
  refine ⟨?_, ?_, ?_⟩
  · intro inst h
    unfold CacheManager.get_or_create
    rw [h]
  · intro h
    constructor
    · unfold CacheManager.get_or_create
      rw [h]
    · intro k v hv
      exact assocGet_dictUpdate_mem defaults criteria k v hnd hv
  · intro n h
    unfold CacheManager.get_or_create
    rw [h]

/-- Witness for claim C5: on an empty store the lookup fails and the merged
mapping takes the default value for the colliding key. -/
theorem claim_C5_get_or_create_spec_witness :
    CacheManager.get_or_create ["pk", "a"] [] [("a", Val.int 1)] [("a", Val.int 2)]
      = some (CacheManager.create ["pk", "a"] []
          (dictUpdate [("a", Val.int 2)] [("a", Val.int 1)]), true)
    ∧ assocGet (dictUpdate [("a", Val.int 2)] [("a", Val.int 1)]) "a"
        = some (Val.int 1) :=
  ⟨((claim_C5_get_or_create_spec ["pk", "a"] [] [("a", Val.int 1)] [("a", Val.int 2)]
      (by decide)).2.1 rfl).1,
    ((claim_C5_get_or_create_spec ["pk", "a"] [] [("a", Val.int 1)] [("a", Val.int 2)]
      (by decide)).2.1 rfl).2 "a" (Val.int 1) rfl⟩

/-- Claim C6: `delete` removes the entry stored under the instance's primary
key and raises `DoesNotExist` when no entry with that primary key is present
(including an instance whose primary key was never assigned). -/
theorem claim_C6_delete_spec (s : Store) (inst : Instance) :
    (∀ k, inst.pk = some k →
        (k ∈ s.map Prod.fst →
          CacheManager.delete s inst = some (s.filter (fun p => decide (p.1 ≠ k))))
        ∧ (k ∉ s.map Prod.fst → CacheManager.delete s inst = Option.none))
    ∧ (inst.pk = Option.none → CacheManager.delete s inst = Option.none) := by
  constructor
  · intro k hk
    have h2 : CacheManager.delete s inst
        = if k ∈ s.map Prod.fst then some (s.filter (fun p => decide (p.1 ≠ k)))
          else Option.none := by
      unfold CacheManager.delete
      rw [hk]
    exact ⟨fun hmem => by rw [h2, if_pos hmem], fun hmem => by rw [h2, if_neg hmem]⟩
  · intro h
    unfold CacheManager.delete
    rw [h]

/-- Witness for claim C6: deleting the only entry empties the store; deleting
an instance whose primary key is absent fails. -/
theorem claim_C6_delete_spec_witness :
    CacheManager.delete [(1, [("pk", Val.int 1)])] ⟨some 1, []⟩ = some []
    ∧ CacheManager.delete [(1, [("pk", Val.int 1)])] ⟨some 5, []⟩ = Option.none :=
  ⟨(((claim_C6_delete_spec [(1, [("pk", Val.int 1)])] ⟨some 1, []⟩).1 1 rfl).1
      (by decide)).trans rfl,
    ((claim_C6_delete_spec [(1, [("pk", Val.int 1)])] ⟨some 5, []⟩).1 5 rfl).2
      (by decide)⟩

/-- Claim C7: `filter` returns exactly the instances of `all` whose named
fields all equal the given values (conjunctive, exact equality); empty
criteria return the same instances as `all`. -/
theorem claim_C7_filter_spec (s : Store) (criteria : List (String × Val)) :
    (∀ obj, obj ∈ CacheManager.filter s criteria ↔
        obj ∈ CacheManager.all s ∧ ∀ p ∈ criteria, getattrV obj p.1 = p.2)
    ∧ CacheManager.filter s [] = CacheManager.all s := by
  constructor
  · intro obj
    unfold CacheManager.filter
    rw [List.mem_filter]
    constructor
    · rintro ⟨h1, h2⟩
      unfold matchesCriteria at h2
      exact ⟨h1, fun p hp => of_decide_eq_true (List.all_eq_true.mp h2 p hp)⟩
    · rintro ⟨h1, h2⟩
      refine ⟨h1, ?_⟩
      unfold matchesCriteria
      exact List.all_eq_true.mpr (fun p hp => decide_eq_true (h2 p hp))
  · unfold CacheManager.filter
    apply List.filter_eq_self.mpr
    intro a _
    rfl

/-- Witness for claim C7: a concrete filter keeps exactly the matching
instance and an empty filter equals `all`. -/
theorem claim_C7_filter_spec_witness :
    CacheManager.filter [(1, [("pk", Val.int 1)])] [] = CacheManager.all [(1, [("pk", Val.int 1)])]
    ∧ ((_dict_to_instance [("pk", Val.int 2), ("a", Val.int 7)]) ∈
        CacheManager.filter
          [(1, [("pk", Val.int 1), ("a", Val.int 5)]), (2, [("pk", Val.int 2), ("a", Val.int 7)])]
          [("a", Val.int 7)]) :=
  ⟨(claim_C7_filter_spec [(1, [("pk", Val.int 1)])] []).2,
    ((claim_C7_filter_spec
        [(1, [("pk", Val.int 1), ("a", Val.int 5)]), (2, [("pk", Val.int 2), ("a", Val.int 7)])]
        [("a", Val.int 7)]).1 _).mpr ⟨by decide, by decide⟩⟩

/-- Claim C8: converting an instance to its field mapping and back yields an
instance that agrees with the original on every declared field, the primary
key included (when the primary-key field is among the declared fields, as it
always is for concrete fields). -/
theorem claim_C8_roundtrip (schema : List String) (inst : Instance) :
    (∀ n, n ∈ schema →
        getattrV (_dict_to_instance (_instance_to_dict schema inst)) n = getattrV inst n)
    ∧ ("pk" ∈ schema → (_dict_to_instance (_instance_to_dict schema inst)).pk = inst.pk) := by
  have h2 : ∀ j : Instance, getattrV j "pk" = pkVal j.pk := fun j => by
    unfold getattrV
    rw [if_pos rfl]
  have hpk : ∀ hm : "pk" ∈ schema,
      (_dict_to_instance (_instance_to_dict schema inst)).pk = inst.pk := by
    intro hm
    have ha : assocGet (_instance_to_dict schema inst) "pk" = some (getattrV inst "pk") :=
      assocGet_map_self (getattrV inst) schema "pk" hm
    simp only [_dict_to_instance, ha, h2 inst]
    cases hp : inst.pk with
    | none => rfl
    | some m => simp [pkVal, parsePk, Int.ofNat_nonneg, Int.toNat_ofNat]
  refine ⟨?_, hpk⟩
  intro n hn
  by_cases hnp : n = "pk"
  · subst hnp
    rw [h2, h2, hpk hn]
  · have h3 : ∀ j : Instance, getattrV j n = (assocGet j.fields n).getD Val.none := fun j => by
      unfold getattrV
      rw [if_neg hnp]
    rw [h3, h3]
    simp only [_dict_to_instance]
    rw [assocGet_filter_ne _ n hnp]
    simp only [_instance_to_dict]
    rw [assocGet_map_self (getattrV inst) schema n hn]
    simp only [Option.getD_some]
    exact h3 inst

/-- Witness for claim C8: round trip on a concrete two-field instance. -/
theorem claim_C8_roundtrip_witness :
    getattrV
        (_dict_to_instance (_instance_to_dict ["pk", "name"] ⟨some 3, [("name", Val.str "z")]⟩))
        "name"
      = getattrV ⟨some 3, [("name", Val.str "z")]⟩ "name"
    ∧ (_dict_to_instance (_instance_to_dict ["pk", "name"] ⟨some 3, [("name", Val.str "z")]⟩)).pk
      = (⟨some 3, [("name", Val.str "z")]⟩ : Instance).pk :=
  ⟨(claim_C8_roundtrip ["pk", "name"] ⟨some 3, [("name", Val.str "z")]⟩).1 "name" (by decide),
    (claim_C8_roundtrip ["pk", "name"] ⟨some 3, [("name", Val.str "z")]⟩).2 (by decide)⟩

theorem manage_fields_error (fields : List FieldDecl) :
    (∃ f ∈ fields, f.isForeignKey = true ∧ isCallable f.cache_on_delete = false) →
    _manage_on_delete_fields fields = Except.error "cache_on_delete must be callable" := by
  induction fields with
  | nil =>
    rintro ⟨f, hf, _⟩
    exact absurd hf (List.not_mem_nil f)
  | cons g rest ih =>
    rintro ⟨f, hf, hfk, hnc⟩
    rcases List.mem_cons.mp hf with rfl | hf2
    · unfold _manage_on_delete_fields
      rw [if_pos hfk]
      cases hattr : f.cache_on_delete with
      | absent => rfl
      | notCallable => rfl
      | policy p =>
        rw [hattr] at hnc
        exact absurd hnc (by simp [isCallable])
    · unfold _manage_on_delete_fields
      by_cases hgk : g.isForeignKey = true
      · rw [if_pos hgk]
        cases hattr : g.cache_on_delete with
        | absent => rfl
        | notCallable => rfl
        | policy p =>
          rw [ih ⟨f, hf2, hfk, hnc⟩]
      · rw [if_neg hgk]
        exact ih ⟨f, hf2, hfk, hnc⟩

theorem manage_fields_ok (fields : List FieldDecl) :
    ∀ (regs : List (String × PolicyFn)),
      _manage_on_delete_fields fields = Except.ok regs →
      ∀ f ∈ fields, f.isForeignKey = true →
        ∃ g, f.cache_on_delete = OnDeleteAttr.policy g := by
  induction fields with
  | nil =>
    intro regs _ f hf
    exact absurd hf (List.not_mem_nil f)
  | cons a rest ih =>
    intro regs h f hf hfk
    unfold _manage_on_delete_fields at h
    by_cases hak : a.isForeignKey = true
    · rw [if_pos hak] at h
      cases hattr : a.cache_on_delete with
      | absent =>
        rw [hattr] at h
        exact Except.noConfusion h
      | notCallable =>
        rw [hattr] at h
        exact Except.noConfusion h
      | policy p =>
        rw [hattr] at h
        cases hrec : _manage_on_delete_fields rest with
        | ok regs2 =>
          rcases List.mem_cons.mp hf with rfl | hf2
          · exact ⟨p, hattr⟩
          · exact ih regs2 hrec f hf2 hfk
        | error e =>
          rw [hrec] at h
          exact Except.noConfusion h
    · rw [if_neg hak] at h
      rcases List.mem_cons.mp hf with rfl | hf2
      · exact absurd hfk hak
      · exact ih regs h f hf2 hfk

/-- Claim C9: a record type declaration containing a foreign-key field whose
on-delete policy attribute is not callable fails with the `TypeError` during
the metaclass wiring of the manager to the type — the type definition itself
errors, independently of any later CRUD operation (none of the CRUD
operations consult the policies at all). -/
theorem claim_C9_on_delete_not_callable (m : ModelDecl)
    (h : ∃ f ∈ m.fields, f.isForeignKey = true ∧ isCallable f.cache_on_delete = false) :
    cacheModelBase_new m = Except.error "cache_on_delete must be callable" := by
  unfold cacheModelBase_new _connect
  rw [manage_fields_error m.fields h]

/-- Witness for claim C9: a type with a foreign key carrying a non-callable
policy fails to be declared. -/
theorem claim_C9_on_delete_not_callable_witness :
    cacheModelBase_new ⟨"Player", [⟨"karaoke", true, OnDeleteAttr.notCallable⟩]⟩
      = Except.error "cache_on_delete must be callable" :=
  claim_C9_on_delete_not_callable ⟨"Player", [⟨"karaoke", true, OnDeleteAttr.notCallable⟩]⟩
    ⟨⟨"karaoke", true, OnDeleteAttr.notCallable⟩, List.mem_cons_self _ _, rfl, rfl⟩

/-- Claim C10: a foreign-key field carrying no cache on-delete attribute at
all (a standard foreign key declared without the cache-aware wrapper) also
fails the type definition, because the missing attribute defaults to `None`,
which is not callable; consequently a record type can only be declared when
every one of its foreign-key fields supplies a callable policy. -/
theorem claim_C10_fk_requires_policy (m : ModelDecl) :
    (∀ nm, mkPlainForeignKey nm ∈ m.fields →
        cacheModelBase_new m = Except.error "cache_on_delete must be callable")
    ∧ ∀ res, cacheModelBase_new m = Except.ok res →
        ∀ f ∈ m.fields, f.isForeignKey = true →
          ∃ g, f.cache_on_delete = OnDeleteAttr.policy g := by
  constructor
  · intro nm hmem
    unfold cacheModelBase_new _connect
    rw [manage_fields_error m.fields ⟨mkPlainForeignKey nm, hmem, rfl, rfl⟩]
  · intro res h f hf hfk
    unfold cacheModelBase_new _connect at h
    cases hrec : _manage_on_delete_fields m.fields with
    | ok regs2 => exact manage_fields_ok m.fields regs2 hrec f hf hfk
    | error e =>
      rw [hrec] at h
      exact Except.noConfusion h

/-- Witness for claim C10: a type holding a plain foreign key (declared
without the cache-aware wrapper) fails to be declared, even next to an
unchecked scalar field. -/
theorem claim_C10_fk_requires_policy_witness :
    cacheModelBase_new ⟨"Item", [⟨"name", false, OnDeleteAttr.absent⟩, mkPlainForeignKey "tag"]⟩
      = Except.error "cache_on_delete must be callable" :=
  (claim_C10_fk_requires_policy
      ⟨"Item", [⟨"name", false, OnDeleteAttr.absent⟩, mkPlainForeignKey "tag"]⟩).1 "tag"
    (List.mem_cons_of_mem _ (List.mem_cons_self _ _))
